import Mathlib

/-!
Verification of the ilmsdump download orchestrator (`ilmsdump/__init__.py`).

The development shallowly embeds the parts of the source relevant to the
resumable expansion-and-download engine:

* `WorkItem` mirrors the `Downloadable` dataclass hierarchy (a representative
  closed set of variants: `Course`, `Video`, and `Attachment` with a nested
  parent, as in the source).  `as_id_string`, `className` (the Python
  `__class__.__name__`) and `STATS_NAME` are taken from the source classes.
* The pickle blob written by `Downloader.create_resume_file` is modelled as a
  self-delimiting token stream (`Tok`); `encodeResume`/`decodeResume` model
  `pickle.dumps`/`pickle.load` of `dict(items=..., ignore=...)`, which for the
  value types involved is a faithful injective serialization with polymorphic
  reconstruction by type tag.
* The filesystem is a `Store` (path-to-blob association list) where writing an
  existing path overwrites it, as `pathlib.Path.write_bytes` does.
* `Downloader.run` is embedded as `stepOnce` (one iteration of the while loop,
  lines 571-618 of the source) iterated by the fuel-indexed `runLoop`.
  Expansion (`item.download` consumed by the `async for`, plus the `meta.json`
  write) is an external collaborator, modelled as a function returning the
  children discovered before any fault together with an optional fault.  The
  SIGINT latch is modelled as a boolean schedule indexed by the number of
  completed items, polled exactly where the source polls `interrupted.is_set()`.
* `Client.request` (lines 217-239) is embedded as `requestLoop` over a script
  of attempt outcomes.
-/

/-- Work items: a closed representative set of `Downloadable` variants from the
source, including a nested heterogeneous field (`Attachment.parent`). -/
inductive WorkItem where
  | course (id : Nat) (serial : String) (is_admin : Bool) (name : String)
  | video (id : Nat) (url : String)
  | attachment (id : Nat) (title : String) (parent : WorkItem)
deriving DecidableEq, Repr

/-- The numeric identity, the `id` attribute of each dataclass. -/
def WorkItem.id : WorkItem → Nat
  | .course i _ _ _ => i
  | .video i _ => i
  | .attachment i _ _ => i

/-- Python `item.__class__.__name__`, used by the skip check and fullstats. -/
def WorkItem.className : WorkItem → String
  | .course .. => "Course"
  | .video .. => "Video"
  | .attachment .. => "Attachment"

/-- The `STATS_NAME` class attribute: `Course` for courses, `File` for videos
and attachments (as in the source). -/
def WorkItem.STATS_NAME : WorkItem → String
  | .course .. => "Course"
  | .video .. => "File"
  | .attachment .. => "File"

/-- `Downloadable.as_id_string`: the string `"{type}-{id}"`. -/
def WorkItem.as_id_string (x : WorkItem) : String :=
  x.className ++ "-" ++ toString x.id

/-- Tokens of the serialized checkpoint blob (model of pickle's opcode
stream): each token is self-delimiting. -/
inductive Tok where
  | nat (v : Nat)
  | str (v : String)
  | bool (v : Bool)
deriving DecidableEq, Repr

/-- Serialize one work item, tagged by variant (model of pickle serializing a
dataclass instance with its class tag). -/
def encodeItem : WorkItem → List Tok
  | .course i serial admin name => [.nat 0, .nat i, .str serial, .bool admin, .str name]
  | .video i url => [.nat 1, .nat i, .str url]
  | .attachment i title parent => [.nat 2, .nat i, .str title] ++ encodeItem parent

/-- Deserialize one work item from the front of a token stream, dispatching on
the variant tag (model of pickle's polymorphic reconstruction). -/
def decodeItem : List Tok → Option (WorkItem × List Tok)
  | .nat 0 :: .nat i :: .str serial :: .bool admin :: .str name :: rest =>
    some (.course i serial admin name, rest)
  | .nat 1 :: .nat i :: .str url :: rest => some (.video i url, rest)
  | .nat 2 :: .nat i :: .str title :: rest =>
    match decodeItem rest with
    | some (parent, rest1) => some (.attachment i title parent, rest1)
    | none => none
  | _ => none

/-- Serialize a list of work items element-wise. -/
def encodeItemList : List WorkItem → List Tok
  | [] => []
  | x :: xs => encodeItem x ++ encodeItemList xs

/-- Deserialize a counted list of work items. -/
def decodeItems : Nat → List Tok → Option (List WorkItem × List Tok)
  | 0, toks => some ([], toks)
  | n + 1, toks =>
    match decodeItem toks with
    | some (x, rest) =>
      match decodeItems n rest with
      | some (xs, rest1) => some (x :: xs, rest1)
      | none => none
    | none => none

/-- Serialize the skip-rule strings element-wise. -/
def encodeStrList : List String → List Tok
  | [] => []
  | s :: ss => .str s :: encodeStrList ss

/-- Deserialize a counted list of strings. -/
def decodeStrs : Nat → List Tok → Option (List String × List Tok)
  | 0, toks => some ([], toks)
  | n + 1, .str s :: rest =>
    match decodeStrs n rest with
    | some (ss, rest1) => some (s :: ss, rest1)
    | none => none
  | _ + 1, _ => none

/-- Serialize the checkpoint payload `dict(items=pending, ignore=ignore)`.
In the source `ignore` is a Python `set` and `pickle.dumps` emits its elements
in iteration order; for strings that order depends on the per-process hash
seed (hash randomization).  The `ignore` argument here is therefore the rule
set *in its process iteration order*: the same set may arrive as a different
permutation in a different process, and the encoding is faithful to the order
it is given — two orders serialize to two different blobs. -/
def encodeResume (pending : List WorkItem) (ignore : List String) : List Tok :=
  Tok.nat pending.length :: encodeItemList pending
    ++ (Tok.nat ignore.length :: encodeStrList ignore)

/-- Deserialize a checkpoint payload, as the `--resume` path of `main` does via
`pickle.load`. -/
def decodeResume (toks : List Tok) : Option (List WorkItem × List String) :=
  match toks with
  | Tok.nat n :: rest =>
    match decodeItems n rest with
    | some (items, rest1) =>
      match rest1 with
      | Tok.nat m :: rest2 =>
        match decodeStrs m rest2 with
        | some (igs, []) => some (items, igs)
        | _ => none
      | _ => none
    | none => none
  | _ => none

/-- The run data directory: an association of file names to blobs. -/
abbrev Store := List (String × List Tok)

/-- `write_bytes`: writing to an existing path overwrites it, a fresh path is
appended. -/
def writeStore : Store → String → List Tok → Store
  | [], p, b => [(p, b)]
  | (q, c) :: rest, p, b =>
    if q = p then (q, b) :: rest else (q, c) :: writeStore rest p b

/-- Read a path from the store. -/
def lookupStore : Store → String → Option (List Tok)
  | [], _ => none
  | (q, c) :: rest, p => if q = p then some c else lookupStore rest p

/-- One token's contribution to the content hash. -/
def tokHash : Tok → Nat
  | .nat v => 2 * v + 1
  | .str s => 2 * s.toList.foldl (fun h c => h * 256 + c.toNat) 0
  | .bool b => if b then 5 else 3

/-- Model of `hashlib.sha256(b).hexdigest()[:7]`: a deterministic digest of the
serialized bytes, truncated. -/
def sha256trunc (b : List Tok) : Nat :=
  b.foldl (fun h t => h * 1000003 + tokHash t) 7 % 268435456

/-- `Downloader.create_resume_file`: pickle the data, name the file by a
truncated content hash, write it, return the path (source lines 549-554). -/
def create_resume_file (store : Store) (pending : List WorkItem) (ignore : List String) :
    Store × String :=
  let b := encodeResume pending ignore
  let resume_file := "resume-" ++ toString (sha256trunc b) ++ ".pickle"
  (writeStore store resume_file b, resume_file)

/-- Per-type counter pair (`Stat` dataclass). -/
structure Stat where
  total : Nat := 0
  completed : Nat := 0
deriving DecidableEq, Repr

/-- `Downloader.mark_total`: bump `stats[item.STATS_NAME].total` in the lazily
created (`defaultdict`) stats table. -/
def mark_total (stats : String → Stat) (item : WorkItem) : String → Stat :=
  fun t =>
    if t = item.STATS_NAME then
      { total := (stats t).total + 1, completed := (stats t).completed }
    else stats t

/-- The stats half of `Downloader.mark_completed`. -/
def mark_completed_stats (stats : String → Stat) (item : WorkItem) : String → Stat :=
  fun t =>
    if t = item.STATS_NAME then
      { total := (stats t).total, completed := (stats t).completed + 1 }
    else stats t

/-- The fullstats half of `Downloader.mark_completed`: a `Counter` keyed by
`item.__class__.__name__`. -/
def mark_completed_full (fullstats : String → Nat) (item : WorkItem) : String → Nat :=
  fun t => if t = item.className then fullstats t + 1 else fullstats t

/-- The engine state at the top of each iteration of the `while items:` loop.
`expandedLog`, `skippedLog` and `discoveredLog` are ghost logs recording, in
order, the id strings of items whose expansion was invoked, of items dropped by
a skip rule, and of items registered via `mark_total` (seeds, then children as
they arrive); they instrument the run without altering it. -/
structure Config where
  queue : List WorkItem
  stats : String → Stat
  fullstats : String → Nat
  store : Store
  expandedLog : List String
  skippedLog : List String
  discoveredLog : List String
  checksDone : Nat

/-- State after the skip branch (source lines 574-576): pop and discard. -/
def skipConfig (c : Config) (x : WorkItem) (rest : List WorkItem) : Config :=
  { c with queue := rest, skippedLog := c.skippedLog ++ [x.as_id_string] }

/-- State after a faulting expansion (source lines 595-602): the children
discovered before the fault were already registered as totals, the queue is
untouched (head still first), and the resume file is written. -/
def faultConfig (c : Config) (x : WorkItem) (rest cs : List WorkItem)
    (ignore : List String) : Config :=
  { c with
    stats := cs.foldl mark_total c.stats,
    expandedLog := c.expandedLog ++ [x.as_id_string],
    discoveredLog := c.discoveredLog ++ cs.map WorkItem.as_id_string,
    store := (create_resume_file c.store (x :: rest) ignore).1 }

/-- State after a successful expansion (source lines 604-606): pop the head,
append its children to the tail, mark it completed. -/
def okConfig (c : Config) (x : WorkItem) (rest cs : List WorkItem) : Config :=
  { queue := rest ++ cs,
    stats := mark_completed_stats (cs.foldl mark_total c.stats) x,
    fullstats := mark_completed_full c.fullstats x,
    store := c.store,
    expandedLog := c.expandedLog ++ [x.as_id_string],
    skippedLog := c.skippedLog,
    discoveredLog := c.discoveredLog ++ cs.map WorkItem.as_id_string,
    checksDone := c.checksDone + 1 }

/-- State on taking the interrupt branch (source lines 608-618): the resume
file of the remaining queue is written on top of `okConfig`. -/
def interruptConfig (c : Config) (x : WorkItem) (rest cs : List WorkItem)
    (ignore : List String) : Config :=
  { okConfig c x rest cs with
    store := (create_resume_file (okConfig c x rest cs).store (rest ++ cs) ignore).1 }

/-- Outcome of one loop iteration. -/
inductive StepOut where
  | next (c : Config)
  | completedRun (c : Config)
  | failedRun (resume_file : String) (item_id : String) (cause : String) (c : Config)
  | interruptedRun (resume_file : String) (c : Config)

/-- The engine state carried by a step outcome. -/
def StepOut.cfg : StepOut → Config
  | .next c => c
  | .completedRun c => c
  | .failedRun _ _ _ c => c
  | .interruptedRun _ c => c

/-- One iteration of the `while items:` loop of `Downloader.run` (source lines
571-618).  `expand` is the external collaborator: `expand item = (cs, f)` means
the `async for child in item.download(...)` yielded the children `cs` (each
immediately registered via `mark_total`) and then either the iteration plus the
`meta.json` write succeeded (`f = none`) or an exception was raised
(`f = some cause`).  `interrupted` is the SIGINT latch value at the n-th poll. -/
def stepOnce (expand : WorkItem → List WorkItem × Option String)
    (interrupted : Nat → Bool) (ignore : List String) (c : Config) : StepOut :=
  match c.queue with
  | [] => .completedRun c
  | item :: rest =>
    if item.className ∈ ignore ∨ item.as_id_string ∈ ignore then
      .next (skipConfig c item rest)
    else
      match expand item with
      | (cs, some cause) =>
        .failedRun (create_resume_file c.store (item :: rest) ignore).2
          item.as_id_string cause (faultConfig c item rest cs ignore)
      | (cs, none) =>
        if interrupted c.checksDone then
          .interruptedRun (create_resume_file (okConfig c item rest cs).store
            (rest ++ cs) ignore).2 (interruptConfig c item rest cs ignore)
        else
          .next (okConfig c item rest cs)

/-- Result of a whole run: normal drain, fault (`DownloadFailed` raised with
the resume path, the offending item's id string and the cause), or the
interrupt exit.  `outOfFuel` marks exhaustion of the step budget of this
fuel-indexed embedding. -/
inductive RunResult where
  | completed (c : Config)
  | failed (resume_file : String) (item_id : String) (cause : String) (c : Config)
  | interrupted (resume_file : String) (c : Config)
  | outOfFuel (c : Config)

/-- The final engine state of a run result. -/
def RunResult.cfg : RunResult → Config
  | .completed c => c
  | .failed _ _ _ c => c
  | .interrupted _ c => c
  | .outOfFuel c => c

/-- Whether the run drained the queue normally. -/
def RunResult.isCompleted : RunResult → Bool
  | .completed _ => true
  | _ => false

/-- Whether the run ended in the fault branch. -/
def RunResult.isFailed : RunResult → Bool
  | .failed _ _ _ _ => true
  | _ => false

/-- Whether the run ended in the interrupt branch. -/
def RunResult.isInterrupted : RunResult → Bool
  | .interrupted _ _ => true
  | _ => false

/-- The checkpoint path carried by a fault or interrupt exit. -/
def RunResult.resume_file : RunResult → String
  | .failed p _ _ _ => p
  | .interrupted p _ => p
  | _ => ""

/-- The offending item's id string carried by a fault exit. -/
def RunResult.item_id : RunResult → String
  | .failed _ i _ _ => i
  | _ => ""

/-- The `while items:` loop, iterated with fuel. -/
def runLoop (expand : WorkItem → List WorkItem × Option String)
    (interrupted : Nat → Bool) (ignore : List String) : Nat → Config → RunResult
  | 0, c =>
    match stepOnce expand interrupted ignore c with
    | .completedRun c1 => .completed c1
    | .failedRun p i cause c1 => .failed p i cause c1
    | .interruptedRun p c1 => .interrupted p c1
    | .next c1 => .outOfFuel c1
  | fuel + 1, c =>
    match stepOnce expand interrupted ignore c with
    | .completedRun c1 => .completed c1
    | .failedRun p i cause c1 => .failed p i cause c1
    | .interruptedRun p c1 => .interrupted p c1
    | .next c1 => runLoop expand interrupted ignore fuel c1

/-- Initial engine state of `Downloader.run` (source lines 556-567): the queue
is seeded from `items` and each seed registered via `mark_total`. -/
def initConfig (store : Store) (items : List WorkItem) : Config :=
  { queue := items,
    stats := items.foldl mark_total (fun _ => { total := 0, completed := 0 }),
    fullstats := fun _ => 0,
    store := store,
    expandedLog := [],
    skippedLog := [],
    discoveredLog := items.map WorkItem.as_id_string,
    checksDone := 0 }

/-- `Downloader.run`. -/
def run (expand : WorkItem → List WorkItem × Option String) (interrupted : Nat → Bool)
    (ignore : List String) (store : Store) (items : List WorkItem) (fuel : Nat) :
    RunResult :=
  runLoop expand interrupted ignore fuel (initConfig store items)

/-- One transition of the engine (a `.next` outcome of `stepOnce`). -/
def Steps (expand : WorkItem → List WorkItem × Option String) (interrupted : Nat → Bool)
    (ignore : List String) (a b : Config) : Prop :=
  stepOnce expand interrupted ignore a = StepOut.next b

/-- Engine states reachable during a run started from `initConfig`. -/
def Reachable (expand : WorkItem → List WorkItem × Option String)
    (interrupted : Nat → Bool) (ignore : List String) (store : Store)
    (items : List WorkItem) (c : Config) : Prop :=
  Relation.ReflTransGen (Steps expand interrupted ignore) (initConfig store items) c

/-- Outcome of a single network attempt inside `Client.request`. -/
inductive Attempt where
  | ok (resp : Nat)
  | respErr (status : Nat)
  | otherErr
deriving DecidableEq, Repr

/-- Result of `Client.request`: the response, or the propagated
`ClientResponseError`, or a propagated non-response error; each carries the
backoff sleeps performed, in order.  `scriptOver` marks exhaustion of the
attempt script (the call would attempt again). -/
inductive ReqResult where
  | success (resp : Nat) (sleeps : List Nat)
  | raised (status : Nat) (sleeps : List Nat)
  | raisedOther (sleeps : List Nat)
  | scriptOver (sleeps : List Nat)
deriving DecidableEq, Repr

/-- The retry loop of `Client.request` (source lines 217-239): `retries = 3`,
`sleep_duration = 5`; on a `ClientResponseError` raise if no retries remain,
raise if the status is not 400, otherwise sleep, quadruple the backoff, and
decrement the budget. -/
def requestLoop : List Attempt → Nat → Nat → List Nat → ReqResult
  | [], _, _, sleeps => .scriptOver sleeps
  | .ok r :: _, _, _, sleeps => .success r sleeps
  | .otherErr :: _, _, _, sleeps => .raisedOther sleeps
  | .respErr s :: rest, retries, sleep_duration, sleeps =>
    if retries = 0 then .raised s sleeps
    else if s ≠ 400 then .raised s sleeps
    else requestLoop rest (retries - 1) (sleep_duration * 4) (sleeps ++ [sleep_duration])

/-- `Client.request` applied to a script of attempt outcomes. -/
def request (script : List Attempt) : ReqResult :=
  requestLoop script 3 5 []

/-- Acyclicity of the discovery graph of an expansion function: some rank
strictly decreases from parent to discovered child. -/
def NoCycles (expand : WorkItem → List WorkItem × Option String) : Prop :=
  ∃ rank : WorkItem → Nat, ∀ x y, y ∈ (expand x).1 → rank y < rank x

/-- Number of queue entries whose `STATS_NAME` is `t`. -/
def countType (t : String) : List WorkItem → Nat
  | [] => 0
  | x :: xs => (if x.STATS_NAME = t then 1 else 0) + countType t xs

/-- Inductive counter invariant: every completed item of a type was counted in
that type's total, and so was every still-queued item. -/
def InvQ (c : Config) : Prop :=
  ∀ t, (c.stats t).completed + countType t c.queue ≤ (c.stats t).total

/-- Inductive bookkeeping invariant: each discovered identity occurrence is
accounted for exactly once, as expanded, as skipped, or as still queued. -/
def CInv (c : Config) : Prop :=
  ∀ s, c.discoveredLog.count s =
    c.expandedLog.count s + c.skippedLog.count s
      + (c.queue.map WorkItem.as_id_string).count s

/-- Expansion with a shared child: both courses discover the same video.  The
discovery graph is a diamond, acyclic but not a forest. -/
def dupExpand (x : WorkItem) : List WorkItem × Option String :=
  if x.className = "Course" then ([WorkItem.video 3 "v"], none) else ([], none)

/-- Two distinct seed courses for the diamond. -/
def dupSeeds : List WorkItem :=
  [WorkItem.course 1 "s1" false "n1", WorkItem.course 2 "s2" false "n2"]

/-- Expansion that yields no children and succeeds. -/
def quietExpand : WorkItem → List WorkItem × Option String := fun _ => ([], none)

/-- Expansion that discovers one child and then faults. -/
def faultExpand : WorkItem → List WorkItem × Option String :=
  fun _ => ([WorkItem.video 99 "u99"], some "boom")

/-- Expansion where courses discover one video and everything else is barren. -/
def childExpand (x : WorkItem) : List WorkItem × Option String :=
  if x.className = "Course" then ([WorkItem.video 99 "u99"], none) else ([], none)

/-- Interrupt latch never set. -/
def noIntr : Nat → Bool := fun _ => false

/-- Interrupt latch set from the start. -/
def allIntr : Nat → Bool := fun _ => true

/-- A sample course item. -/
def itemX : WorkItem := .course 74 "10810CS" true "Calculus"

/-- A sample video item. -/
def itemY : WorkItem := .video 12 "v12.mp4"

/-- A sample attachment item with a nested parent. -/
def itemZ : WorkItem := .attachment 5 "notes.pdf" (.course 74 "10810CS" true "Calculus")

/-- Engine state seeded with the three sample items. -/
def cfgXYZ : Config := initConfig [] [itemX, itemY, itemZ]

/-- Engine state seeded with one item. -/
def cfgX : Config := initConfig [] [itemX]

theorem decodeItem_encodeItem (x : WorkItem) :
    ∀ rest : List Tok, decodeItem (encodeItem x ++ rest) = some (x, rest) := by
  induction x with
  | course i serial admin name => intro rest; rfl
  | video i url => intro rest; rfl
  | attachment i title parent ih =>
    intro rest
    simp [encodeItem, decodeItem, ih]

theorem decodeItems_encodeItemList (l : List WorkItem) :
    ∀ rest : List Tok, decodeItems l.length (encodeItemList l ++ rest) = some (l, rest) := by
  induction l with
  | nil => intro rest; rfl
  | cons x xs ih =>
    intro rest
    simp [encodeItemList, decodeItems, decodeItem_encodeItem, ih]

theorem decodeStrs_encodeStrList (l : List String) :
    ∀ rest : List Tok, decodeStrs l.length (encodeStrList l ++ rest) = some (l, rest) := by
  induction l with
  | nil => intro rest; rfl
  | cons s ss ih =>
    intro rest
    simp [encodeStrList, decodeStrs, ih]

theorem decodeResume_encodeResume (P : List WorkItem) (S : List String) :
    decodeResume (encodeResume P S) = some (P, S) := by
  have h1 := decodeItems_encodeItemList P (Tok.nat S.length :: encodeStrList S)
  have h2 : decodeStrs S.length (encodeStrList S) = some (S, []) := by
    simpa using decodeStrs_encodeStrList S []
  simp [encodeResume, decodeResume, h1, h2]

theorem lookupStore_writeStore_self (s : Store) (p : String) (b : List Tok) :
    lookupStore (writeStore s p b) p = some b := by
  induction s with
  | nil => simp [writeStore, lookupStore]
  | cons e rest ih =>
    obtain ⟨q, c⟩ := e
    by_cases h : q = p
    · simp [writeStore, lookupStore, h]
    · simp [writeStore, lookupStore, h, ih]

theorem writeStore_writeStore_self (s : Store) (p : String) (b : List Tok) :
    writeStore (writeStore s p b) p b = writeStore s p b := by
  induction s with
  | nil => simp [writeStore]
  | cons e rest ih =>
    obtain ⟨q, c⟩ := e
    by_cases h : q = p
    · simp [writeStore, h]
    · simp [writeStore, h, ih]

/-- C6: loading the checkpoint blob produced by saving a non-empty,
heterogeneously-typed pending list `P` together with skip rules `S` restores
exactly `(P, S)`: same items in the same order, each in its original variant,
and the same rules. -/
theorem checkpoint_round_trip (P : List WorkItem) (S : List String) (_hP : P ≠ []) :
    decodeResume (encodeResume P S) = some (P, S) :=
  decodeResume_encodeResume P S

theorem checkpoint_round_trip_witness :
    [itemX, itemY, itemZ] ≠ ([] : List WorkItem) ∧
    decodeResume (encodeResume [itemX, itemY, itemZ] ["Video", "Course-74"]) =
      some ([itemX, itemY, itemZ], ["Video", "Course-74"]) :=
  ⟨by decide, checkpoint_round_trip [itemX, itemY, itemZ] ["Video", "Course-74"] (by decide)⟩

/-- C7 counterexample: the skip rules are pickled as a Python set in its
process-dependent iteration order, and the two orders below are permutations
of the same two-rule set, as two separate runs of the program may iterate it
under hash randomization.  They serialize to different bytes and hash to
different truncated digests, so the two runs derive *different* file names for
the identical snapshot, and saving it from the second run into the data
directory written by the first creates a second file. -/
theorem checkpoint_path_differs_across_set_orders :
    List.Perm ["Video", "Course-74"] ["Course-74", "Video"] ∧
    (create_resume_file [] [itemX] ["Video", "Course-74"]).2 ≠
      (create_resume_file [] [itemX] ["Course-74", "Video"]).2 ∧
    (create_resume_file [] [itemX] ["Video", "Course-74"]).1.length = 1 ∧
    (create_resume_file (create_resume_file [] [itemX] ["Video", "Course-74"]).1
        [itemX] ["Course-74", "Video"]).1.length = 2 :=
  ⟨by decide, by decide, by decide, by decide⟩

/-- C7 (amended): with the serialized order of the skip-rule set fixed — as it
is for the lifetime of one process, where a set's iteration order does not
change — saving the checkpoint of the same snapshot twice yields the same
content-hash-derived path regardless of what the data directory already
contains, and the second save leaves the store unchanged: no second file is
created.  Across separate runs the guarantee holds only if the set happens to
iterate in the same order; `checkpoint_path_differs_across_set_orders` shows it
can fail otherwise. -/
theorem create_resume_file_idempotent (store store2 : Store) (pending : List WorkItem)
    (ignore : List String) :
    (create_resume_file store pending ignore).2 =
      (create_resume_file store2 pending ignore).2 ∧
    (create_resume_file (create_resume_file store pending ignore).1 pending ignore).1 =
      (create_resume_file store pending ignore).1 ∧
    (create_resume_file (create_resume_file store pending ignore).1 pending ignore).2 =
      (create_resume_file store pending ignore).2 ∧
    (create_resume_file (create_resume_file store pending ignore).1 pending ignore).1.length =
      (create_resume_file store pending ignore).1.length := by
  refine ⟨rfl, ?_, rfl, ?_⟩
  · simp [create_resume_file, writeStore_writeStore_self]
  · simp [create_resume_file, writeStore_writeStore_self]

/-- C4 counterexample: a transport call that fails three consecutive times with
the transient status 400 does not raise; the code sleeps a third time
(5, 20, 80) and then makes a fourth attempt, whose success is returned. -/
theorem request_fourth_attempt_after_three_transient_failures :
    request [.respErr 400, .respErr 400, .respErr 400, .ok 7] =
      .success 7 [5, 20, 80] := rfl

/-- C4 (amended): only a fourth consecutive transient failure exhausts the
retry budget of 3: the call raises after the third backoff sleep (5, 20, 80),
with no further sleep and no further attempt (the rest of the script is never
consumed). -/
theorem request_exhausts_budget_on_fourth_failure (rest : List Attempt) :
    request (.respErr 400 :: .respErr 400 :: .respErr 400 :: .respErr 400 :: rest) =
      .raised 400 [5, 20, 80] := rfl

/-- C5: a transport call failing twice with the transient status 400 and then
succeeding returns the successful response after sleeping exactly 5s then 20s;
a call failing with any other response status, or with a non-response error,
raises immediately with no sleeps and no retries. -/
theorem request_transient_retry_then_success :
    (∀ (r : Nat) (rest : List Attempt),
      request (.respErr 400 :: .respErr 400 :: .ok r :: rest) = .success r [5, 20]) ∧
    (∀ (s : Nat) (rest : List Attempt), s ≠ 400 →
      request (.respErr s :: rest) = .raised s []) ∧
    (∀ rest : List Attempt, request (.otherErr :: rest) = .raisedOther []) := by
  refine ⟨fun r rest => rfl, fun s rest hs => ?_, fun rest => rfl⟩
  simp [request, requestLoop, hs]

theorem request_transient_retry_then_success_witness :
    request [.respErr 400, .respErr 400, .ok 9] = .success 9 [5, 20] ∧
    request [.respErr 500] = .raised 500 [] ∧
    request [.otherErr] = .raisedOther [] :=
  ⟨request_transient_retry_then_success.1 9 [],
   request_transient_retry_then_success.2.1 500 [] (by decide),
   request_transient_retry_then_success.2.2 []⟩

theorem stepOnce_queue_nil (e : WorkItem → List WorkItem × Option String)
    (i : Nat → Bool) (g : List String) (c : Config) (h : c.queue = []) :
    stepOnce e i g c = .completedRun c := by
  simp [stepOnce, h]

theorem stepOnce_skip (e : WorkItem → List WorkItem × Option String) (i : Nat → Bool)
    (g : List String) (c : Config) (x : WorkItem) (rest : List WorkItem)
    (hq : c.queue = x :: rest) (hm : x.className ∈ g ∨ x.as_id_string ∈ g) :
    stepOnce e i g c = .next (skipConfig c x rest) := by
  simp [stepOnce, hq, hm]

theorem stepOnce_fault (e : WorkItem → List WorkItem × Option String) (i : Nat → Bool)
    (g : List String) (c : Config) (x : WorkItem) (rest cs : List WorkItem) (cause : String)
    (hq : c.queue = x :: rest) (hm : ¬(x.className ∈ g ∨ x.as_id_string ∈ g))
    (hf : e x = (cs, some cause)) :
    stepOnce e i g c = .failedRun (create_resume_file c.store (x :: rest) g).2
      x.as_id_string cause (faultConfig c x rest cs g) := by
  simp [stepOnce, hq, hm, hf]

theorem stepOnce_ok_interrupted (e : WorkItem → List WorkItem × Option String)
    (i : Nat → Bool) (g : List String) (c : Config) (x : WorkItem) (rest cs : List WorkItem)
    (hq : c.queue = x :: rest) (hm : ¬(x.className ∈ g ∨ x.as_id_string ∈ g))
    (hf : e x = (cs, none)) (hi : i c.checksDone = true) :
    stepOnce e i g c = .interruptedRun
      (create_resume_file (okConfig c x rest cs).store (rest ++ cs) g).2
      (interruptConfig c x rest cs g) := by
  simp [stepOnce, hq, hm, hf, hi]

theorem stepOnce_ok_next (e : WorkItem → List WorkItem × Option String) (i : Nat → Bool)
    (g : List String) (c : Config) (x : WorkItem) (rest cs : List WorkItem)
    (hq : c.queue = x :: rest) (hm : ¬(x.className ∈ g ∨ x.as_id_string ∈ g))
    (hf : e x = (cs, none)) (hi : i c.checksDone = false) :
    stepOnce e i g c = .next (okConfig c x rest cs) := by
  simp [stepOnce, hq, hm, hf, hi]

theorem runLoop_queue_nil (e : WorkItem → List WorkItem × Option String) (i : Nat → Bool)
    (g : List String) (fuel : Nat) (c : Config) (h : c.queue = []) :
    runLoop e i g fuel c = .completed c := by
  have hs := stepOnce_queue_nil e i g c h
  cases fuel <;> simp [runLoop, hs]

theorem runLoop_of_failedRun (e : WorkItem → List WorkItem × Option String) (i : Nat → Bool)
    (g : List String) (fuel : Nat) (c c1 : Config) (p iid cause : String)
    (hs : stepOnce e i g c = .failedRun p iid cause c1) :
    runLoop e i g fuel c = .failed p iid cause c1 := by
  cases fuel <;> simp [runLoop, hs]

theorem runLoop_of_interruptedRun (e : WorkItem → List WorkItem × Option String)
    (i : Nat → Bool) (g : List String) (fuel : Nat) (c c1 : Config) (p : String)
    (hs : stepOnce e i g c = .interruptedRun p c1) :
    runLoop e i g fuel c = .interrupted p c1 := by
  cases fuel <;> simp [runLoop, hs]

theorem runLoop_of_next (e : WorkItem → List WorkItem × Option String) (i : Nat → Bool)
    (g : List String) (fuel : Nat) (c c1 : Config)
    (hs : stepOnce e i g c = .next c1) :
    runLoop e i g (fuel + 1) c = runLoop e i g fuel c1 := by
  simp [runLoop, hs]

/-- C2: if expansion of the head item `x` of the queue `x :: rest` raises a
fault, the run ends in the failure branch carrying the checkpoint path and the
offending item's id string, and the blob stored at that path decodes to a
pending list that is exactly `x :: rest`: the failing head is still first, it
was not popped, and none of its partially discovered children were enqueued. -/
theorem fault_checkpoint_keeps_head (e : WorkItem → List WorkItem × Option String)
    (i : Nat → Bool) (g : List String) (fuel : Nat) (c : Config) (x : WorkItem)
    (rest cs : List WorkItem) (cause : String)
    (hq : c.queue = x :: rest)
    (hm : ¬(x.className ∈ g ∨ x.as_id_string ∈ g))
    (hf : e x = (cs, some cause)) :
    (runLoop e i g fuel c).isFailed = true ∧
    (runLoop e i g fuel c).item_id = x.as_id_string ∧
    ((lookupStore (runLoop e i g fuel c).cfg.store (runLoop e i g fuel c).resume_file).bind
        decodeResume) = some (x :: rest, g) := by
  have h := runLoop_of_failedRun e i g fuel c (faultConfig c x rest cs g)
    (create_resume_file c.store (x :: rest) g).2 x.as_id_string cause
    (stepOnce_fault e i g c x rest cs cause hq hm hf)
  rw [h]
  refine ⟨rfl, rfl, ?_⟩
  show (lookupStore (faultConfig c x rest cs g).store
      (create_resume_file c.store (x :: rest) g).2).bind decodeResume = _
  simp [faultConfig, create_resume_file, lookupStore_writeStore_self,
    decodeResume_encodeResume]

theorem fault_checkpoint_keeps_head_witness :
    (runLoop faultExpand noIntr ["Nope"] 5 cfgXYZ).isFailed = true ∧
    (runLoop faultExpand noIntr ["Nope"] 5 cfgXYZ).item_id = itemX.as_id_string ∧
    ((lookupStore (runLoop faultExpand noIntr ["Nope"] 5 cfgXYZ).cfg.store
        (runLoop faultExpand noIntr ["Nope"] 5 cfgXYZ).resume_file).bind decodeResume) =
      some ([itemX, itemY, itemZ], ["Nope"]) :=
  fault_checkpoint_keeps_head faultExpand noIntr ["Nope"] 5 cfgXYZ itemX [itemY, itemZ]
    [WorkItem.video 99 "u99"] "boom" rfl (by decide) rfl

/-- C3: if the interrupt latch is observed set at the poll right after the head
item `x` of queue `x :: rest` completes with children `cs`, the run ends in the
interrupt branch; the checkpoint blob at the returned path decodes to the
pending list `rest ++ cs` — `x` excluded, the remaining items first, then `x`'s
children in discovery order — and no further item is expanded (the expansion
log ends at `x`). -/
theorem interrupt_checkpoint_excludes_completed (e : WorkItem → List WorkItem × Option String)
    (i : Nat → Bool) (g : List String) (fuel : Nat) (c : Config) (x : WorkItem)
    (rest cs : List WorkItem)
    (hq : c.queue = x :: rest)
    (hm : ¬(x.className ∈ g ∨ x.as_id_string ∈ g))
    (hf : e x = (cs, none))
    (hi : i c.checksDone = true) :
    (runLoop e i g fuel c).isInterrupted = true ∧
    ((lookupStore (runLoop e i g fuel c).cfg.store (runLoop e i g fuel c).resume_file).bind
        decodeResume) = some (rest ++ cs, g) ∧
    (runLoop e i g fuel c).cfg.expandedLog = c.expandedLog ++ [x.as_id_string] := by
  have h := runLoop_of_interruptedRun e i g fuel c (interruptConfig c x rest cs g)
    (create_resume_file (okConfig c x rest cs).store (rest ++ cs) g).2
    (stepOnce_ok_interrupted e i g c x rest cs hq hm hf hi)
  rw [h]
  refine ⟨rfl, ?_, rfl⟩
  show (lookupStore (interruptConfig c x rest cs g).store
      (create_resume_file (okConfig c x rest cs).store (rest ++ cs) g).2).bind decodeResume = _
  simp [interruptConfig, create_resume_file, lookupStore_writeStore_self,
    decodeResume_encodeResume]

theorem interrupt_checkpoint_excludes_completed_witness :
    (runLoop childExpand allIntr [] 5 cfgXYZ).isInterrupted = true ∧
    ((lookupStore (runLoop childExpand allIntr [] 5 cfgXYZ).cfg.store
        (runLoop childExpand allIntr [] 5 cfgXYZ).resume_file).bind decodeResume) =
      some ([itemY, itemZ] ++ [WorkItem.video 99 "u99"], []) ∧
    (runLoop childExpand allIntr [] 5 cfgXYZ).cfg.expandedLog =
      cfgXYZ.expandedLog ++ [itemX.as_id_string] :=
  interrupt_checkpoint_excludes_completed childExpand allIntr [] 5 cfgXYZ itemX
    [itemY, itemZ] [WorkItem.video 99 "u99"] rfl (by decide) (by decide) rfl

/-- C10: if the interrupt latch is observed set right after the last queued
item completes childless (the queue is now empty), the run still takes the
interrupt exit — not the normal completion — and the checkpoint blob at the
returned path decodes to an empty pending list. -/
theorem interrupt_after_last_item (e : WorkItem → List WorkItem × Option String)
    (i : Nat → Bool) (g : List String) (fuel : Nat) (c : Config) (x : WorkItem)
    (hq : c.queue = [x])
    (hm : ¬(x.className ∈ g ∨ x.as_id_string ∈ g))
    (hf : e x = ([], none))
    (hi : i c.checksDone = true) :
    (runLoop e i g fuel c).isInterrupted = true ∧
    (runLoop e i g fuel c).isCompleted = false ∧
    ((lookupStore (runLoop e i g fuel c).cfg.store (runLoop e i g fuel c).resume_file).bind
        decodeResume) = some ([], g) := by
  have h := runLoop_of_interruptedRun e i g fuel c (interruptConfig c x [] [] g)
    (create_resume_file (okConfig c x [] []).store ([] ++ []) g).2
    (stepOnce_ok_interrupted e i g c x [] [] hq hm hf hi)
  rw [h]
  refine ⟨rfl, rfl, ?_⟩
  show (lookupStore (interruptConfig c x [] [] g).store
      (create_resume_file (okConfig c x [] []).store ([] ++ []) g).2).bind decodeResume = _
  simp [interruptConfig, create_resume_file, lookupStore_writeStore_self,
    decodeResume_encodeResume]

theorem interrupt_after_last_item_witness :
    (runLoop quietExpand allIntr [] 5 cfgX).isInterrupted = true ∧
    (runLoop quietExpand allIntr [] 5 cfgX).isCompleted = false ∧
    ((lookupStore (runLoop quietExpand allIntr [] 5 cfgX).cfg.store
        (runLoop quietExpand allIntr [] 5 cfgX).resume_file).bind decodeResume) =
      some ([], []) :=
  interrupt_after_last_item quietExpand allIntr [] 5 cfgX itemX rfl (by decide) rfl rfl

/-- C8: a head item whose bare class name or exact id string matches a skip
rule is popped and discarded without invoking its expansion: the run continues
on the remaining queue from an otherwise unchanged state — same stats (no
completed tally), same fullstats, same store, same expansion log. -/
theorem skip_rule_drops_without_expansion (e : WorkItem → List WorkItem × Option String)
    (i : Nat → Bool) (g : List String) (fuel : Nat) (c : Config) (x : WorkItem)
    (rest : List WorkItem)
    (hq : c.queue = x :: rest)
    (hm : x.className ∈ g ∨ x.as_id_string ∈ g) :
    runLoop e i g (fuel + 1) c = runLoop e i g fuel (skipConfig c x rest) ∧
    (skipConfig c x rest).queue = rest ∧
    (skipConfig c x rest).stats = c.stats ∧
    (skipConfig c x rest).fullstats = c.fullstats ∧
    (skipConfig c x rest).expandedLog = c.expandedLog ∧
    (skipConfig c x rest).store = c.store :=
  ⟨runLoop_of_next e i g fuel c (skipConfig c x rest) (stepOnce_skip e i g c x rest hq hm),
   rfl, rfl, rfl, rfl, rfl⟩

theorem skip_rule_drops_without_expansion_witness :
    runLoop quietExpand noIntr ["Course"] 4 cfgXYZ =
      runLoop quietExpand noIntr ["Course"] 3 (skipConfig cfgXYZ itemX [itemY, itemZ]) ∧
    (skipConfig cfgXYZ itemX [itemY, itemZ]).queue = [itemY, itemZ] ∧
    (skipConfig cfgXYZ itemX [itemY, itemZ]).stats = cfgXYZ.stats ∧
    (skipConfig cfgXYZ itemX [itemY, itemZ]).fullstats = cfgXYZ.fullstats ∧
    (skipConfig cfgXYZ itemX [itemY, itemZ]).expandedLog = cfgXYZ.expandedLog ∧
    (skipConfig cfgXYZ itemX [itemY, itemZ]).store = cfgXYZ.store :=
  skip_rule_drops_without_expansion quietExpand noIntr ["Course"] 3 cfgXYZ itemX
    [itemY, itemZ] rfl (by decide)

theorem countType_append (t : String) (l1 l2 : List WorkItem) :
    countType t (l1 ++ l2) = countType t l1 + countType t l2 := by
  induction l1 with
  | nil => simp [countType]
  | cons x xs ih => simp [countType, ih]; omega

theorem foldl_mark_total_spec (l : List WorkItem) :
    ∀ (s : String → Stat) (t : String),
      ((l.foldl mark_total s) t).total = (s t).total + countType t l ∧
      ((l.foldl mark_total s) t).completed = (s t).completed := by
  induction l with
  | nil => intro s t; simp [countType]
  | cons x xs ih =>
    intro s t
    have h := ih (mark_total s x) t
    simp only [List.foldl_cons] at *
    by_cases ht : t = x.STATS_NAME
    · subst ht
      simp [mark_total, countType] at h ⊢
      omega
    · have ht2 : ¬(x.STATS_NAME = t) := fun hh => ht hh.symm
      simp [mark_total, countType, ht, ht2] at h ⊢
      omega

theorem InvQ_init (store : Store) (seeds : List WorkItem) : InvQ (initConfig store seeds) := by
  intro t
  have h := foldl_mark_total_spec seeds (fun _ => { total := 0, completed := 0 }) t
  simp only [initConfig] at *
  omega

theorem InvQ_okConfig (c : Config) (x : WorkItem) (rest cs : List WorkItem)
    (hq : c.queue = x :: rest) (h : InvQ c) : InvQ (okConfig c x rest cs) := by
  intro t
  have hc := h t
  have hf2 := foldl_mark_total_spec cs c.stats t
  rw [hq] at hc
  simp only [okConfig, countType_append]
  by_cases hst : t = x.STATS_NAME
  · subst hst
    simp [mark_completed_stats, countType] at hc ⊢
    omega
  · have hst2 : ¬(x.STATS_NAME = t) := fun hh => hst hh.symm
    simp [mark_completed_stats, countType, hst, hst2] at hc ⊢
    omega

theorem stepOnce_InvQ (e : WorkItem → List WorkItem × Option String) (i : Nat → Bool)
    (g : List String) (c : Config) (h : InvQ c) : InvQ ((stepOnce e i g c).cfg) := by
  cases hq : c.queue with
  | nil => rw [stepOnce_queue_nil e i g c hq]; exact h
  | cons x rest =>
    by_cases hm : x.className ∈ g ∨ x.as_id_string ∈ g
    · rw [stepOnce_skip e i g c x rest hq hm]
      intro t
      have hc := h t
      rw [hq] at hc
      simp only [StepOut.cfg, skipConfig]
      by_cases hst : t = x.STATS_NAME
      · subst hst; simp [countType] at hc ⊢; omega
      · have hst2 : ¬(x.STATS_NAME = t) := fun hh => hst hh.symm
        simp [countType, hst2] at hc ⊢; omega
    · rcases hx : e x with ⟨cs, f⟩
      cases f with
      | some cause =>
        rw [stepOnce_fault e i g c x rest cs cause hq hm hx]
        intro t
        have hc := h t
        have hf2 := foldl_mark_total_spec cs c.stats t
        simp only [StepOut.cfg, faultConfig] at *
        omega
      | none =>
        have key := InvQ_okConfig c x rest cs hq h
        cases hi : i c.checksDone with
        | true =>
          rw [stepOnce_ok_interrupted e i g c x rest cs hq hm hx hi]
          intro t
          have := key t
          simpa [interruptConfig, StepOut.cfg] using this
        | false =>
          rw [stepOnce_ok_next e i g c x rest cs hq hm hx hi]
          exact key

theorem stepOnce_stats_mono (e : WorkItem → List WorkItem × Option String) (i : Nat → Bool)
    (g : List String) (c : Config) :
    ∀ t, (c.stats t).total ≤ (((stepOnce e i g c).cfg).stats t).total ∧
      (c.stats t).completed ≤ (((stepOnce e i g c).cfg).stats t).completed := by
  cases hq : c.queue with
  | nil => rw [stepOnce_queue_nil e i g c hq]; intro t; exact ⟨le_refl _, le_refl _⟩
  | cons x rest =>
    by_cases hm : x.className ∈ g ∨ x.as_id_string ∈ g
    · rw [stepOnce_skip e i g c x rest hq hm]
      intro t
      exact ⟨le_refl _, le_refl _⟩
    · rcases hx : e x with ⟨cs, f⟩
      cases f with
      | some cause =>
        rw [stepOnce_fault e i g c x rest cs cause hq hm hx]
        intro t
        have hf2 := foldl_mark_total_spec cs c.stats t
        simp only [StepOut.cfg, faultConfig]
        omega
      | none =>
        have key : ∀ t, (c.stats t).total ≤ ((okConfig c x rest cs).stats t).total ∧
            (c.stats t).completed ≤ ((okConfig c x rest cs).stats t).completed := by
          intro t
          have hf2 := foldl_mark_total_spec cs c.stats t
          simp only [okConfig]
          by_cases hst : t = x.STATS_NAME
          · subst hst; simp [mark_completed_stats] at hf2 ⊢; omega
          · simp [mark_completed_stats, hst] at hf2 ⊢; omega
        cases hi : i c.checksDone with
        | true =>
          rw [stepOnce_ok_interrupted e i g c x rest cs hq hm hx hi]
          intro t
          have := key t
          simpa [interruptConfig, StepOut.cfg] using this
        | false =>
          rw [stepOnce_ok_next e i g c x rest cs hq hm hx hi]
          exact key

theorem Reachable_InvQ (e : WorkItem → List WorkItem × Option String) (i : Nat → Bool)
    (g : List String) (store : Store) (seeds : List WorkItem) (c : Config)
    (h : Reachable e i g store seeds c) : InvQ c := by
  induction h with
  | refl => exact InvQ_init store seeds
  | tail _ hstep ih =>
    have h2 := stepOnce_InvQ e i g _ ih
    unfold Steps at hstep
    rw [hstep] at h2
    exact h2

/-- C9: in every engine state reachable during a run, the completed counter of
every type's `Stat` is at most its total counter; this also holds in the state
produced by the next step from any reachable state, and along each step both
counters are non-decreasing (so they are monotone for the lifetime of the
run). -/
theorem stats_completed_le_total (e : WorkItem → List WorkItem × Option String)
    (i : Nat → Bool) (g : List String) (store : Store) (seeds : List WorkItem)
    (c : Config) (h : Reachable e i g store seeds c) :
    (∀ t, (c.stats t).completed ≤ (c.stats t).total) ∧
    (∀ t, (((stepOnce e i g c).cfg).stats t).completed ≤
      (((stepOnce e i g c).cfg).stats t).total) ∧
    (∀ t, (c.stats t).total ≤ (((stepOnce e i g c).cfg).stats t).total ∧
      (c.stats t).completed ≤ (((stepOnce e i g c).cfg).stats t).completed) := by
  have hinv := Reachable_InvQ e i g store seeds c h
  refine ⟨fun t => le_trans (Nat.le_add_right _ _) (hinv t),
    fun t => le_trans (Nat.le_add_right _ _) (stepOnce_InvQ e i g c hinv t),
    stepOnce_stats_mono e i g c⟩

theorem stats_completed_le_total_witness :
    (∀ t, ((initConfig [] [itemX]).stats t).completed ≤
      ((initConfig [] [itemX]).stats t).total) ∧
    (∀ t, (((stepOnce quietExpand noIntr [] (initConfig [] [itemX])).cfg).stats t).completed ≤
      (((stepOnce quietExpand noIntr [] (initConfig [] [itemX])).cfg).stats t).total) ∧
    (∀ t, ((initConfig [] [itemX]).stats t).total ≤
        (((stepOnce quietExpand noIntr [] (initConfig [] [itemX])).cfg).stats t).total ∧
      ((initConfig [] [itemX]).stats t).completed ≤
        (((stepOnce quietExpand noIntr [] (initConfig [] [itemX])).cfg).stats t).completed) :=
  stats_completed_le_total quietExpand noIntr [] [] [itemX] (initConfig [] [itemX])
    Relation.ReflTransGen.refl

theorem CInv_okConfig (c : Config) (x : WorkItem) (rest cs : List WorkItem)
    (hq : c.queue = x :: rest) (h : CInv c) : CInv (okConfig c x rest cs) := by
  intro s
  have hc := h s
  rw [hq] at hc
  simp only [okConfig, List.map_append, List.map_cons, List.count_append] at hc ⊢
  by_cases hxs : s = x.as_id_string
  · subst hxs
    simp [List.count_cons] at hc ⊢
    omega
  · simp [List.count_cons, List.count_singleton, hxs] at hc ⊢
    omega

theorem runLoop_completed_count (e : WorkItem → List WorkItem × Option String)
    (i : Nat → Bool) :
    ∀ (fuel : Nat) (c : Config), CInv c → c.skippedLog = [] →
      (runLoop e i [] fuel c).isCompleted = true →
      ∀ s, (runLoop e i [] fuel c).cfg.discoveredLog.count s =
        (runLoop e i [] fuel c).cfg.expandedLog.count s := by
  intro fuel
  induction fuel with
  | zero =>
    intro c hinv hskip hdone s
    cases hq : c.queue with
    | nil =>
      rw [runLoop_queue_nil e i [] 0 c hq] at hdone ⊢
      have h2 := hinv s
      rw [hq, hskip] at h2
      simp at h2
      simpa [RunResult.cfg] using h2
    | cons x rest =>
      have hm : ¬(x.className ∈ ([] : List String) ∨ x.as_id_string ∈ ([] : List String)) := by
        simp
      rcases hx : e x with ⟨cs, f⟩
      cases f with
      | some cause =>
        rw [runLoop_of_failedRun e i [] 0 c (faultConfig c x rest cs [])
          (create_resume_file c.store (x :: rest) []).2 x.as_id_string cause
          (stepOnce_fault e i [] c x rest cs cause hq hm hx)] at hdone
        simp [RunResult.isCompleted] at hdone
      | none =>
        cases hi : i c.checksDone with
        | true =>
          rw [runLoop_of_interruptedRun e i [] 0 c (interruptConfig c x rest cs [])
            (create_resume_file (okConfig c x rest cs).store (rest ++ cs) []).2
            (stepOnce_ok_interrupted e i [] c x rest cs hq hm hx hi)] at hdone
          simp [RunResult.isCompleted] at hdone
        | false =>
          have hs := stepOnce_ok_next e i [] c x rest cs hq hm hx hi
          rw [show runLoop e i [] 0 c = .outOfFuel (okConfig c x rest cs) from by
            simp [runLoop, hs]] at hdone
          simp [RunResult.isCompleted] at hdone
  | succ fuel ih =>
    intro c hinv hskip hdone s
    cases hq : c.queue with
    | nil =>
      rw [runLoop_queue_nil e i [] (fuel + 1) c hq] at hdone ⊢
      have h2 := hinv s
      rw [hq, hskip] at h2
      simp at h2
      simpa [RunResult.cfg] using h2
    | cons x rest =>
      have hm : ¬(x.className ∈ ([] : List String) ∨ x.as_id_string ∈ ([] : List String)) := by
        simp
      rcases hx : e x with ⟨cs, f⟩
      cases f with
      | some cause =>
        rw [runLoop_of_failedRun e i [] (fuel + 1) c (faultConfig c x rest cs [])
          (create_resume_file c.store (x :: rest) []).2 x.as_id_string cause
          (stepOnce_fault e i [] c x rest cs cause hq hm hx)] at hdone
        simp [RunResult.isCompleted] at hdone
      | none =>
        cases hi : i c.checksDone with
        | true =>
          rw [runLoop_of_interruptedRun e i [] (fuel + 1) c (interruptConfig c x rest cs [])
            (create_resume_file (okConfig c x rest cs).store (rest ++ cs) []).2
            (stepOnce_ok_interrupted e i [] c x rest cs hq hm hx hi)] at hdone
          simp [RunResult.isCompleted] at hdone
        | false =>
          have hs := stepOnce_ok_next e i [] c x rest cs hq hm hx hi
          rw [runLoop_of_next e i [] fuel c (okConfig c x rest cs) hs] at hdone ⊢
          exact ih (okConfig c x rest cs) (CInv_okConfig c x rest cs hq hinv)
            (by simp [okConfig, hskip]) hdone s

/-- C1 counterexample: `dupExpand` has an acyclic discovery graph (a rank
strictly decreases along discovery edges), yet a normally completing run from
two seed courses that share the child `Video-3` expands the identity string
`Video-3` twice — the engine keeps no visited set, so acyclicity alone does not
prevent re-expansion of an already expanded identity. -/
theorem acyclic_discovery_reexpanded :
    NoCycles dupExpand ∧
    (run dupExpand noIntr [] [] dupSeeds 10).isCompleted = true ∧
    ¬(run dupExpand noIntr [] [] dupSeeds 10).cfg.expandedLog.Nodup := by
  refine ⟨⟨fun x => if x.className = "Course" then 1 else 0, ?_⟩, by decide, by decide⟩
  intro x y hy
  by_cases h : x.className = "Course"
  · simp [dupExpand, h] at hy
    subst hy
    simp [h]
    decide
  · simp [dupExpand, h] at hy

/-- C1 (amended): at normal completion of a run without skip rules, the
multiset of expanded identity strings equals the multiset of discovered ones
(seeds plus all children) — each discovered occurrence is expanded exactly
once.  Hence whenever no identity is discovered more than once (the discovery
log is duplicate-free, which acyclicity alone does not guarantee), every
distinct discovered identity is expanded exactly once and none is ever
re-expanded. -/
theorem expansion_unique_when_discovery_unique
    (e : WorkItem → List WorkItem × Option String) (i : Nat → Bool) (store : Store)
    (seeds : List WorkItem) (fuel : Nat)
    (hdone : (run e i [] store seeds fuel).isCompleted = true)
    (hnodup : (run e i [] store seeds fuel).cfg.discoveredLog.Nodup) :
    (run e i [] store seeds fuel).cfg.expandedLog.Nodup ∧
    List.Perm (run e i [] store seeds fuel).cfg.expandedLog
      (run e i [] store seeds fuel).cfg.discoveredLog := by
  have hinit : CInv (initConfig store seeds) := by
    intro s
    simp [initConfig]
  simp only [run] at hdone hnodup ⊢
  have hcount := runLoop_completed_count e i fuel (initConfig store seeds) hinit rfl hdone
  have hperm : List.Perm (runLoop e i [] fuel (initConfig store seeds)).cfg.discoveredLog
      (runLoop e i [] fuel (initConfig store seeds)).cfg.expandedLog := by
    refine List.perm_iff_count.mpr ?_
    intro a
    exact hcount a
  exact ⟨hperm.nodup hnodup, hperm.symm⟩

theorem expansion_unique_when_discovery_unique_witness :
    (run quietExpand noIntr [] [] [itemX, itemY] 5).isCompleted = true ∧
    (run quietExpand noIntr [] [] [itemX, itemY] 5).cfg.discoveredLog.Nodup ∧
    ((run quietExpand noIntr [] [] [itemX, itemY] 5).cfg.expandedLog.Nodup ∧
      List.Perm (run quietExpand noIntr [] [] [itemX, itemY] 5).cfg.expandedLog
        (run quietExpand noIntr [] [] [itemX, itemY] 5).cfg.discoveredLog) :=
  ⟨by decide, by decide,
    expansion_unique_when_discovery_unique quietExpand noIntr [] [itemX, itemY] 5
      (by decide) (by decide)⟩

theorem request_exhausts_budget_on_fourth_failure_witness :
    request [.respErr 400, .respErr 400, .respErr 400, .respErr 400, .ok 9] =
      .raised 400 [5, 20, 80] :=
  request_exhausts_budget_on_fourth_failure [.ok 9]

theorem create_resume_file_idempotent_witness :
    (create_resume_file [] [itemX, itemY] ["Video"]).2 =
      (create_resume_file [("old.pickle", [Tok.nat 0])] [itemX, itemY] ["Video"]).2 ∧
    (create_resume_file (create_resume_file [] [itemX, itemY] ["Video"]).1
        [itemX, itemY] ["Video"]).1 =
      (create_resume_file [] [itemX, itemY] ["Video"]).1 ∧
    (create_resume_file (create_resume_file [] [itemX, itemY] ["Video"]).1
        [itemX, itemY] ["Video"]).2 =
      (create_resume_file [] [itemX, itemY] ["Video"]).2 ∧
    (create_resume_file (create_resume_file [] [itemX, itemY] ["Video"]).1
        [itemX, itemY] ["Video"]).1.length =
      (create_resume_file [] [itemX, itemY] ["Video"]).1.length :=
  create_resume_file_idempotent [] [("old.pickle", [Tok.nat 0])] [itemX, itemY] ["Video"]
